import Mathlib

/-!
Verification of the task graph engine of the TAMA task manager.

The engine lives in `src/task_manager/core.py` (identifier resolution,
next-task scheduling, the status state machine and the task/subtask
mutators).  Python's in-place mutation of the task list is embedded as
explicit state passing: every mutating operation returns the updated
collection, and the alias through which CPython mutates an object is
rendered as a positional first-match update.  Machine integers are `Int`
(Python ints are unbounded), fallible lookups return `Option`, and the
one raising operation (`add_subtask`) returns `Except`.  Wall-clock
timestamps in the execution-history records are omitted.
-/

set_option maxRecDepth 8000

namespace TaskManager

/-- A dependency reference: in `data_models.Dependency` a value is either a
plain integer task id or a string such as "1.2" naming a subtask. -/
inductive Dependency where
  | ofInt (n : Int)
  | ofStr (s : String)
deriving DecidableEq, Repr

/-- Modelled from the spec: `data_models.Subtask` is not part of the corpus.
Spec section 3: integer id (unique within the parent), title, optional
description, status, priority, dependency references and a back-reference
to the owning task's id.  A subtask owns no nested subtasks. -/
structure Subtask where
  id : Int
  title : String
  description : Option String := none
  status : String := "pending"
  priority : String := "medium"
  dependencies : List Dependency := []
  parent_task_id : Int
deriving DecidableEq, Repr

/-- Modelled from the spec: `data_models.Task` is not part of the corpus.
Spec section 3: integer id (unique across the collection), title, optional
description, status, priority, dependency references and the owned subtask
sequence.  Per the spec's data model a task carries no parent back-reference
(only subtasks do), so the ancestor-recursion guard at `core.py` line 186
(`if parent_task.parent_task_id`) can never fire on a two-level collection
and is statically absent from this embedding. -/
structure Task where
  id : Int
  title : String
  description : Option String := none
  status : String := "pending"
  priority : String := "medium"
  dependencies : List Dependency := []
  subtasks : List Subtask := []
deriving DecidableEq, Repr

/-- Modelled from the spec: `data_models.Status.__args__`, the six accepted
status strings of spec section 3. -/
def statusArgs : List String :=
  ["pending", "in-progress", "done", "blocked", "deferred", "review"]

/-- Numeric value of a digit string, most significant digit first. -/
def digitsVal (cs : List Char) : Nat :=
  cs.foldl (fun a c => a * 10 + (c.toNat - 48)) 0

/-- Python `int(str)` on a whitespace-stripped character list: an optional
sign followed by at least one decimal digit; anything else raises
`ValueError`, rendered here as `none`. -/
def pyParseIntChars (cs : List Char) : Option Int :=
  match cs with
  | '+' :: rest =>
    if rest ≠ [] ∧ rest.all Char.isDigit then some (Int.ofNat (digitsVal rest)) else none
  | '-' :: rest =>
    if rest ≠ [] ∧ rest.all Char.isDigit then some (-(Int.ofNat (digitsVal rest))) else none
  | _ =>
    if cs ≠ [] ∧ cs.all Char.isDigit then some (Int.ofNat (digitsVal cs)) else none

/-- Leading and trailing whitespace removal, as Python `int` performs before
parsing. -/
def stripWs (cs : List Char) : List Char :=
  ((cs.dropWhile Char.isWhitespace).reverse.dropWhile Char.isWhitespace).reverse

/-- Python `int(s)`. -/
def pyParseInt (s : String) : Option Int :=
  pyParseIntChars (stripWs s.toList)

/-- Python `s.split('.')` on the character list, keeping empty segments. -/
def splitDotAux : List Char → List Char → List (List Char)
  | [], cur => [cur.reverse]
  | c :: rest, cur =>
    if c = '.' then cur.reverse :: splitDotAux rest [] else splitDotAux rest (c :: cur)

/-- All segments of `s` between '.' separators. -/
def splitDot (s : String) : List (List Char) :=
  splitDotAux s.toList []

/-- The parsing half of `get_task_by_id` (`core.py` lines 30-42 and 60-61):
an id string is either a plain integer or "parent.sub" with exactly one
separator and two parsable parts; every malformed shape yields `none`
(the `ValueError` handler at line 67 returns `None`). -/
def parseIdChars (s : String) : Option (Int ⊕ Int × Int) :=
  if s.toList = [] then none
  else if '.' ∈ s.toList then
    match splitDot s with
    | [p0, p1] =>
      if p0 = [] ∨ p1 = [] then none
      else
        match pyParseIntChars (stripWs p0), pyParseIntChars (stripWs p1) with
        | some pid, some sid => some (Sum.inr (pid, sid))
        | _, _ => none
    | _ => none
  else (pyParseInt s).map Sum.inl

/-- Subtask lookup of `core.py` lines 44-58: first task with the parent id,
reject when its subtask list is empty, then first subtask with the sub id.
The parent id is kept alongside the subtask because it is the position an
in-place update through the returned alias would write to. -/
def resolveSub (tasks : List Task) (pid sid : Int) : Option (Int × Subtask) :=
  match tasks.find? (fun t => t.id == pid) with
  | none => none
  | some parent =>
    if parent.subtasks = [] then none
    else
      match parent.subtasks.find? (fun st => st.id == sid) with
      | some st => some (pid, st)
      | none => none

/-- Lookup half of `get_task_by_id`, dispatching on the parsed id. -/
def locate (tasks : List Task) : Int ⊕ Int × Int → Option (Task ⊕ Int × Subtask)
  | Sum.inl tid => (tasks.find? (fun t => t.id == tid)).map Sum.inl
  | Sum.inr (pid, sid) => (resolveSub tasks pid sid).map Sum.inr

/-- `get_task_by_id` with the located subtask's parent position retained. -/
def resolveItem (tasks : List Task) (s : String) : Option (Task ⊕ Int × Subtask) :=
  (parseIdChars s).bind (locate tasks)

/-- `get_task_by_id(tasks, task_id_str)` of `core.py` lines 25-71. -/
def get_task_by_id (tasks : List Task) (s : String) : Option (Task ⊕ Subtask) :=
  (resolveItem tasks s).map (Sum.map id Prod.snd)

/-- Ids of the top-level tasks whose status is "done" (`core.py` lines 76-80;
the subtask clause is commented out in the source). -/
def completedIds (tasks : List Task) : List Int :=
  (tasks.filter (fun t => t.status == "done")).map Task.id

/-- Status field of a resolved task or subtask. -/
def itemStatus : Task ⊕ Subtask → String
  | Sum.inl t => t.status
  | Sum.inr st => st.status

/-- Dependency check of `core.py` lines 97-111: an integer reference must be
a completed task id, a string reference containing '.' must resolve to an
entity whose status is "done", and any other shape fails the check. -/
def depSatisfied (tasks : List Task) : Dependency → Bool
  | Dependency.ofInt n => (completedIds tasks).contains n
  | Dependency.ofStr s =>
    if '.' ∈ s.toList then
      match get_task_by_id tasks s with
      | some it => itemStatus it == "done"
      | none => false
    else false

/-- All of a task's declared dependencies are satisfied. -/
def depsMet (tasks : List Task) (t : Task) : Bool :=
  t.dependencies.all (depSatisfied tasks)

/-- The eligible list built by `core.py` lines 88-114: not "done", all
dependencies met, not "blocked". -/
def eligibleTasks (tasks : List Task) : List Task :=
  tasks.filter (fun t => t.status != "done" && depsMet tasks t && t.status != "blocked")

/-- `priority_map.get(t.priority, 2)` of `core.py` line 123-125. -/
def priorityRank (p : String) : Int :=
  if p == "high" then 3 else if p == "medium" then 2 else if p == "low" then 1 else 2

/-- Sort key of `core.py` line 125: priority descending, then id ascending. -/
def keyOf (t : Task) : Int × Int :=
  (-(priorityRank t.priority), t.id)

/-- Strict lexicographic order on sort keys. -/
def keyLt (a b : Int × Int) : Prop :=
  a.1 < b.1 ∨ (a.1 = b.1 ∧ a.2 < b.2)

instance (a b : Int × Int) : Decidable (keyLt a b) := by
  unfold keyLt; infer_instance

/-- `find_next_task(tasks)` of `core.py` lines 73-129.  The source stably
sorts the eligible list by `(-rank, id)` and returns its head; the head of
such a sort is the first element attaining the minimal key, computed here by
a left fold.  Both empty-eligible branches of lines 116-121 return `None`. -/
def find_next_task (tasks : List Task) : Option Task :=
  match eligibleTasks tasks with
  | [] => none
  | t :: ts =>
    some (ts.foldl (fun best x => if keyLt (keyOf x) (keyOf best) then x else best) t)

/-- One record of the process-wide `task_execution_history` list
(`core.py` lines 160-168); the wall-clock fields are omitted. -/
structure TaskHistoryEntry where
  task_id : String
  old_status : String
  new_status : String
  success : Bool
deriving DecidableEq, Repr

/-- Replace the first element satisfying `p` — the positional rendering of a
mutation through the alias CPython obtains from a first-match search. -/
def updateFirst (p : α → Bool) (f : α → α) : List α → List α
  | [] => []
  | x :: xs => if p x then f x :: xs else x :: updateFirst p f xs

/-- Downward propagation step of `core.py` lines 173-176. -/
def forceSubDone (st : Subtask) : Subtask :=
  if st.status != "done" then { st with status := "done" } else st

/-- Write of the resolved subtask's new status inside its owning task, the
positional rendering of `item.status = new_status` (`core.py` line 155) when
the resolved item is a subtask aliased into a parent's sequence. -/
def setSubStatus (sid : Int) (ns : String) (p : Task) : Task :=
  { p with subtasks :=
      updateFirst (fun s2 => s2.id == sid) (fun s2 => { s2 with status := ns }) p.subtasks }

/-- `set_task_status(tasks, task_id_str, new_status)` of `core.py` lines
133-189, returning the success flag, the updated collection and the history
records appended by the call.  The ancestor recursion guarded by
`parent_task.parent_task_id` (line 186) is absent: per the spec's data model
a `Task` has no parent back-reference (see `Task` above). -/
def set_task_status (tasks : List Task) (task_id_str : String) (new_status : String) :
    Bool × List Task × List TaskHistoryEntry :=
  if ¬ statusArgs.contains new_status then (false, tasks, [])
  else
    match resolveItem tasks task_id_str with
    | none => (false, tasks, [])
    | some (Sum.inl t) =>
      if t.status == new_status then (true, tasks, [])
      else
        let t1 : Task := { t with status := new_status }
        let t2 : Task :=
          if new_status == "done" ∧ t.subtasks ≠ [] then
            { t1 with subtasks := t1.subtasks.map forceSubDone }
          else t1
        (true, updateFirst (fun u => u.id == t.id) (fun _ => t2) tasks,
         [⟨task_id_str, t.status, new_status, true⟩])
    | some (Sum.inr (pid, st)) =>
      if st.status == new_status then (true, tasks, [])
      else
        let tasks1 := updateFirst (fun u => u.id == pid) (setSubStatus st.id new_status) tasks
        let hist : List TaskHistoryEntry := [⟨task_id_str, st.status, new_status, true⟩]
        if new_status == "done" then
          match tasks1.find? (fun t => t.id == st.parent_task_id) with
          | none => (true, tasks1, hist)
          | some parent =>
            if parent.subtasks ≠ [] ∧
               parent.subtasks.all (fun s2 => s2.status == "done") ∧
               parent.status ≠ "done" then
              (true,
               updateFirst (fun u => u.id == parent.id)
                 (fun p => { p with status := "done" }) tasks1,
               hist)
            else (true, tasks1, hist)
        else (true, tasks1, hist)

/-- Modelled from the spec: `exceptions.ParentTaskNotFoundError` is not part
of the corpus; spec section 7 names it as the one explicitly signalled error
condition. -/
structure ParentTaskNotFoundError where
  msg : String
deriving DecidableEq, Repr

/-- Python `str(dep_id)` used when re-resolving a declared dependency
(`core.py` lines 204 and 238). -/
def depKeyStr : Dependency → String
  | Dependency.ofInt n => toString n
  | Dependency.ofStr s => s

/-- Dependency filter of `core.py` lines 200-207 and 234-241: keep exactly
the references the resolver can locate, silently dropping the rest. -/
def validDeps (tasks : List Task) (deps : List Dependency) : List Dependency :=
  deps.filter (fun d => (get_task_by_id tasks (depKeyStr d)).isSome)

/-- Fresh id assignment of `core.py` lines 195-198. -/
def newTaskId (tasks : List Task) : Int :=
  match tasks.map Task.id with
  | [] => 1
  | x :: xs => xs.foldl max x + 1

/-- `add_new_task(tasks, title, ...)` of `core.py` lines 192-219, returning
the created task and the extended collection. -/
def add_new_task (tasks : List Task) (title : String) (description : Option String)
    (priority : String) (dependencies : List Dependency) : Task × List Task :=
  let new_task : Task :=
    { id := newTaskId tasks, title := title, description := description,
      status := "pending", priority := priority,
      dependencies := validDeps tasks dependencies, subtasks := [] }
  (new_task, tasks ++ [new_task])

/-- Fresh subtask id assignment of `core.py` lines 229-232. -/
def newSubtaskId (parent : Task) : Int :=
  match parent.subtasks.map Subtask.id with
  | [] => 1
  | x :: xs => xs.foldl max x + 1

/-- `add_subtask(tasks, parent_task_id, title, ...)` of `core.py` lines
221-254: raises `ParentTaskNotFoundError` when no task carries the parent
id, otherwise appends the new subtask to the parent's sequence. -/
def add_subtask (tasks : List Task) (parent_task_id : Int) (title : String)
    (description : Option String) (priority : String) (dependencies : List Dependency) :
    Except ParentTaskNotFoundError Subtask × List Task :=
  match tasks.find? (fun t => t.id == parent_task_id) with
  | none =>
    (Except.error ⟨"Parent task with ID " ++ toString parent_task_id ++ " not found"⟩, tasks)
  | some parent =>
    let new_sub : Subtask :=
      { id := newSubtaskId parent, title := title, description := description,
        status := "pending", priority := priority,
        dependencies := validDeps tasks dependencies,
        parent_task_id := parent_task_id }
    (Except.ok new_sub,
     updateFirst (fun t => t.id == parent_task_id)
       (fun p => { p with subtasks := p.subtasks ++ [new_sub] }) tasks)

/-- Node label of a task (its id as text, spec section 4.2). -/
def intLabel (n : Int) : String := toString n

/-- Modelled from the spec: `task_manager.dependencies` is not part of the
corpus (only its tests are).  Spec section 4.2: one node per task and per
subtask, a task labelled by its id as text and a subtask by
"parentId.subId"; each node carries its declared dependency list. -/
def nodeList (tasks : List Task) : List (String × List Dependency) :=
  tasks.flatMap (fun t =>
    (intLabel t.id, t.dependencies) ::
      t.subtasks.map (fun st => (intLabel t.id ++ "." ++ intLabel st.id, st.dependencies)))

/-- Label a dependency reference points at. -/
def depLabel : Dependency → String
  | Dependency.ofInt n => intLabel n
  | Dependency.ofStr s => s

/-- Modelled from the spec: outgoing edges of a node, spec section 4.2 —
an edge per declared dependency reference, but only when the referenced
node exists in the collection (dangling references are silently ignored). -/
def adjacency (tasks : List Task) (l : String) : List String :=
  match (nodeList tasks).find? (fun p => p.1 == l) with
  | none => []
  | some p => (p.2.map depLabel).filter (fun d => (nodeList tasks).any (fun q => q.1 == d))

/-- Representative cycle path reported on a back-edge (spec section 4.2:
the reported path is representative, not canonical). -/
def extractCycle (v : String) (stack : List String) : List String :=
  v :: ((stack.takeWhile (fun x => x != v)).reverse ++ [v])

mutual

/-- Modelled from the spec: depth-first visit of one node, spec section 4.2 —
a current-path stack, a fully-visited set, and a back-edge to a node on the
stack signalling a cycle.  The fuel argument bounds the recursion depth; the
driver supplies more fuel than there are nodes, and exhaustion returns the
no-cycle answer. -/
def visitNode (adj : String → List String) (fuel : Nat) (stack : List String)
    (v : String) (visited : List String) : Option (List String) × List String :=
  match fuel with
  | 0 => (none, visited)
  | Nat.succ f =>
    if visited.contains v then (none, visited)
    else if stack.contains v then (some (extractCycle v stack), visited)
    else
      match visitEdges adj f (v :: stack) (adj v) visited with
      | (some c, vis) => (some c, vis)
      | (none, vis) => (none, v :: vis)
termination_by (fuel, 0)

/-- Modelled from the spec: visit the outgoing edges of the node on top of
the stack, left to right, propagating the first cycle found. -/
def visitEdges (adj : String → List String) (fuel : Nat) (stack : List String)
    (ns : List String) (visited : List String) : Option (List String) × List String :=
  match ns with
  | [] => (none, visited)
  | w :: ws =>
    match visitNode adj fuel stack w visited with
    | (some c, vis) => (some c, vis)
    | (none, vis) => visitEdges adj fuel stack ws vis
termination_by (fuel, ns.length + 1)

end

/-- Modelled from the spec: run the depth-first search from every node in
turn, sharing the visited set. -/
def findCycleFrom (adj : String → List String) (fuel : Nat) :
    List String → List String → Option (List String)
  | [], _ => none
  | r :: rs, visited =>
    match visitNode adj fuel [] r visited with
    | (some c, _) => some c
    | (none, vis) => findCycleFrom adj fuel rs vis

/-- Modelled from the spec: `find_circular_dependencies(tasks)` of the
missing `task_manager.dependencies` module, spec section 4.2. -/
def find_circular_dependencies (tasks : List Task) : Option (List String) :=
  findCycleFrom (adjacency tasks) (((nodeList tasks).map Prod.fst).length + 1)
    ((nodeList tasks).map Prod.fst) []

/-- Edge relation of the dependency graph: tasks and subtasks as nodes,
edges only to dependency targets that exist in the collection. -/
def EdgeF (adj : String → List String) (a b : String) : Prop := b ∈ adj a

/-- The dependency graph of a collection. -/
def Edge (tasks : List Task) : String → String → Prop := EdgeF (adjacency tasks)

/-- The collection's dependency graph has no directed cycle. -/
def AcyclicDeps (tasks : List Task) : Prop :=
  ∀ v, ¬ Relation.TransGen (Edge tasks) v v

/-- Invariant of the depth-first traversal: each node on the current-path
stack has an edge to the node pushed just above it. -/
def StackOk (adj : String → List String) (stack : List String) : Prop :=
  List.Chain' (fun a b => EdgeF adj b a) stack

/-- Non-strict lexicographic order on scheduler sort keys. -/
def keyLe (a b : Int × Int) : Prop :=
  a.1 < b.1 ∨ (a.1 = b.1 ∧ a.2 ≤ b.2)

/-- The malformed identifier shapes of the claim: empty, a plain id that is
not numeric, more than one '.' separator, or a separator with a missing or
non-numeric part on either side. -/
def malformedId (s : String) : Prop :=
  s = "" ∨
  ('.' ∈ s.toList ∧
    ((splitDot s).length ≠ 2 ∨ ∃ p ∈ splitDot s, pyParseIntChars (stripWs p) = none)) ∨
  ('.' ∉ s.toList ∧ pyParseInt s = none)

instance (s : String) : Decidable (malformedId s) := by
  unfold malformedId; infer_instance

/-- A dependency reference that resolves to no existing task or subtask, or
whose shape is neither an integer nor a composite string. -/
def badDep (tasks : List Task) : Dependency → Prop
  | Dependency.ofInt n => ∀ t ∈ tasks, t.id ≠ n
  | Dependency.ofStr s => ('.' ∉ s.toList) ∨ get_task_by_id tasks s = none

instance (tasks : List Task) (d : Dependency) : Decidable (badDep tasks d) := by
  cases d <;> (unfold badDep; infer_instance)

/-- Top-level task ids are pairwise distinct and each task's subtask ids are
pairwise distinct within that task (spec section 3 invariants). -/
def UniqueIds (tasks : List Task) : Prop :=
  (tasks.map Task.id).Nodup ∧ ∀ t ∈ tasks, (t.subtasks.map Subtask.id).Nodup

instance (tasks : List Task) : Decidable (UniqueIds tasks) := by
  unfold UniqueIds; infer_instance

/-- Concrete scheduling fixture of the claim: A done, B medium depending on
A, C high depending on A. -/
def exTaskA : Task := { id := 1, title := "A", status := "done", priority := "high" }

/-- Fixture task B. -/
def exTaskB : Task :=
  { id := 2, title := "B", status := "pending", priority := "medium",
    dependencies := [Dependency.ofInt 1] }

/-- Fixture task C. -/
def exTaskC : Task :=
  { id := 3, title := "C", status := "pending", priority := "high",
    dependencies := [Dependency.ofInt 1] }

/-- The three-task fixture collection. -/
def exampleABC : List Task := [exTaskA, exTaskB, exTaskC]

/-- Fixture subtask 3.1, already done. -/
def exSub31 : Subtask := { id := 1, title := "S31", status := "done", parent_task_id := 3 }

/-- Fixture subtask 3.2, still pending. -/
def exSub32 : Subtask := { id := 2, title := "S32", status := "pending", parent_task_id := 3 }

/-- Fixture parent task owning subtasks 3.1 and 3.2. -/
def exParent3 : Task :=
  { id := 3, title := "P", status := "in-progress", priority := "medium",
    subtasks := [exSub31, exSub32] }

/-- Fixture collection for the upward-propagation claim. -/
def exPromote : List Task := [exParent3]

/-- Fixture task whose only dependency dangles. -/
def exDanglingTask : Task :=
  { id := 1, title := "T1", status := "pending", priority := "medium",
    dependencies := [Dependency.ofInt 99] }

/-- Fixture collection with a task whose only dependency dangles. -/
def exDangling : List Task := [exDanglingTask]

theorem updateFirst_length (p : α → Bool) (f : α → α) (l : List α) :
    (updateFirst p f l).length = l.length := by
  induction l with
  | nil => rfl
  | cons x xs ih =>
    unfold updateFirst
    split <;> simp [ih]

theorem updateFirst_map (p : α → Bool) (f : α → α) (g : α → β) (l : List α)
    (h : ∀ x, g (f x) = g x) : (updateFirst p f l).map g = l.map g := by
  induction l with
  | nil => rfl
  | cons x xs ih =>
    unfold updateFirst
    split <;> simp [ih, h]

theorem find?_updateFirst (p : α → Bool) (f : α → α) (l : List α)
    (h : ∀ x, p x = true → p (f x) = true) :
    (updateFirst p f l).find? p = (l.find? p).map f := by
  induction l with
  | nil => rfl
  | cons x xs ih =>
    unfold updateFirst
    by_cases hx : p x = true
    · simp [hx, List.find?_cons_of_pos, h x hx]
    · have hx' : p x = false := by simp at hx; exact hx
      simp [hx', List.find?_cons_of_neg, ih]

theorem mem_updateFirst (p : α → Bool) (f : α → α) (l : List α) (a : α)
    (hfind : l.find? p = some a) : ∀ x ∈ updateFirst p f l, x ∈ l ∨ x = f a := by
  induction l with
  | nil => intro x hx; cases hx
  | cons y ys ih =>
    intro x hx
    unfold updateFirst at hx
    by_cases hy : p y = true
    · rw [List.find?_cons_of_pos _ hy] at hfind
      injection hfind with hfa
      subst hfa
      simp [hy] at hx
      rcases hx with hx | hx
      · right; exact hx
      · left; exact List.mem_cons_of_mem _ hx
    · have hy' : p y = false := by simp at hy; exact hy
      rw [List.find?_cons_of_neg _ (by simp [hy'])] at hfind
      simp [hy'] at hx
      rcases hx with hx | hx
      · left; simp [hx]
      · rcases ih hfind x hx with h1 | h1
        · left; exact List.mem_cons_of_mem _ h1
        · right; exact h1

theorem keyLe_refl (a : Int × Int) : keyLe a a := by
  unfold keyLe; omega

theorem keyLe_trans {a b c : Int × Int} (h1 : keyLe a b) (h2 : keyLe b c) : keyLe a c := by
  unfold keyLe at *; omega

theorem keyLe_of_keyLt {a b : Int × Int} (h : keyLt a b) : keyLe a b := by
  unfold keyLt at h; unfold keyLe; omega

theorem keyLe_of_not_keyLt {a b : Int × Int} (h : ¬ keyLt a b) : keyLe b a := by
  unfold keyLt at h; unfold keyLe; omega

theorem foldlMin_mem (ts : List Task) : ∀ t : Task,
    ts.foldl (fun best x => if keyLt (keyOf x) (keyOf best) then x else best) t ∈ t :: ts := by
  induction ts with
  | nil => intro t; simp
  | cons x xs ih =>
    intro t
    simp only [List.foldl_cons]
    have h := ih (if keyLt (keyOf x) (keyOf t) then x else t)
    rw [List.mem_cons] at h
    rcases h with h | h
    · rw [h]; split
      · exact List.mem_cons_of_mem _ (List.mem_cons_self _ _)
      · exact List.mem_cons_self _ _
    · exact List.mem_cons_of_mem _ (List.mem_cons_of_mem _ h)

theorem foldlMin_le (ts : List Task) : ∀ t : Task, ∀ u ∈ t :: ts,
    keyLe (keyOf (ts.foldl (fun best x => if keyLt (keyOf x) (keyOf best) then x else best) t))
      (keyOf u) := by
  induction ts with
  | nil =>
    intro t u hu
    simp at hu
    subst hu
    exact keyLe_refl _
  | cons x xs ih =>
    intro t u hu
    simp only [List.foldl_cons]
    have step : keyLe (keyOf (if keyLt (keyOf x) (keyOf t) then x else t)) (keyOf t) ∧
        keyLe (keyOf (if keyLt (keyOf x) (keyOf t) then x else t)) (keyOf x) := by
      split
      · rename_i hlt
        exact ⟨keyLe_of_keyLt hlt, keyLe_refl _⟩
      · rename_i hlt
        exact ⟨keyLe_refl _, keyLe_of_not_keyLt hlt⟩
    have base := ih (if keyLt (keyOf x) (keyOf t) then x else t)
    rw [List.mem_cons, List.mem_cons] at hu
    rcases hu with hu | hu | hu
    · subst hu
      exact keyLe_trans (base _ (List.mem_cons_self _ _)) step.1
    · subst hu
      exact keyLe_trans (base _ (List.mem_cons_self _ _)) step.2
    · exact base _ (List.mem_cons_of_mem _ hu)

theorem le_foldl_max (xs : List Int) : ∀ x : Int, ∀ y ∈ x :: xs, y ≤ xs.foldl max x := by
  induction xs with
  | nil => intro x y hy; simp at hy; subst hy; simp
  | cons z zs ih =>
    intro x y hy
    simp only [List.foldl_cons]
    have hmax := ih (max x z) (max x z) (List.mem_cons_self _ _)
    rw [List.mem_cons, List.mem_cons] at hy
    rcases hy with hy | hy | hy
    · subst hy; exact le_trans (le_max_left _ _) hmax
    · subst hy; exact le_trans (le_max_right _ _) hmax
    · exact ih (max x z) y (List.mem_cons_of_mem _ hy)

theorem lt_newTaskId (tasks : List Task) : ∀ t ∈ tasks, t.id < newTaskId tasks := by
  intro t ht
  unfold newTaskId
  have hmem : t.id ∈ tasks.map Task.id := List.mem_map_of_mem _ ht
  cases hm : tasks.map Task.id with
  | nil => rw [hm] at hmem; cases hmem
  | cons x xs =>
    rw [hm] at hmem
    show t.id < xs.foldl max x + 1
    have := le_foldl_max xs x t.id hmem
    omega

theorem lt_newSubtaskId (parent : Task) : ∀ st ∈ parent.subtasks, st.id < newSubtaskId parent := by
  intro st hst
  unfold newSubtaskId
  have hmem : st.id ∈ parent.subtasks.map Subtask.id := List.mem_map_of_mem _ hst
  cases hm : parent.subtasks.map Subtask.id with
  | nil => rw [hm] at hmem; cases hmem
  | cons x xs =>
    rw [hm] at hmem
    show st.id < xs.foldl max x + 1
    have := le_foldl_max xs x st.id hmem
    omega

theorem resolveItem_inr_elim {tasks : List Task} {s : String} {pid : Int} {S : Subtask}
    (h : resolveItem tasks s = some (Sum.inr (pid, S))) :
    ∃ P, tasks.find? (fun t => t.id == pid) = some P ∧ P.subtasks ≠ [] ∧
      P.subtasks.find? (fun st2 => st2.id == S.id) = some S := by
  unfold resolveItem at h
  rcases Option.bind_eq_some.mp h with ⟨a, _, hloc⟩
  cases a with
  | inl tid =>
    simp only [locate] at hloc
    rcases Option.map_eq_some'.mp hloc with ⟨x, _, hx⟩
    cases hx
  | inr pr =>
    obtain ⟨pid', sid⟩ := pr
    simp only [locate] at hloc
    rcases Option.map_eq_some'.mp hloc with ⟨x, hres, hx⟩
    obtain ⟨pid2, st2⟩ := x
    have hpr : (pid2, st2) = (pid, S) := Sum.inr.inj hx
    have e1 : pid = pid2 := (congrArg Prod.fst hpr).symm
    have e2 : S = st2 := (congrArg Prod.snd hpr).symm
    subst e1; subst e2
    unfold resolveSub at hres
    cases hfp : tasks.find? (fun t => t.id == pid') with
    | none => simp only [hfp] at hres; cases hres
    | some parent =>
      simp only [hfp] at hres
      by_cases hemp : parent.subtasks = []
      · simp [hemp] at hres
      · simp only [if_neg hemp] at hres
        cases hfs : parent.subtasks.find? (fun st2 => st2.id == sid) with
        | none => simp only [hfs] at hres; cases hres
        | some st3 =>
          simp only [hfs] at hres
          have hinj := Option.some.inj hres
          have h1 : pid = pid' := (congrArg Prod.fst hinj).symm
          have h2 : S = st3 := (congrArg Prod.snd hinj).symm
          subst h1; subst h2
          have hSid : S.id = sid := by simpa using List.find?_some hfs
          refine ⟨parent, hfp, hemp, ?_⟩
          rw [hSid]
          exact hfs

theorem get_inl_mem {tasks : List Task} {s : String} {t : Task}
    (h : get_task_by_id tasks s = some (Sum.inl t)) : t ∈ tasks := by
  unfold get_task_by_id at h
  rcases Option.map_eq_some'.mp h with ⟨x, hres, hx⟩
  cases x with
  | inl t0 =>
    simp [Sum.map] at hx
    subst hx
    unfold resolveItem at hres
    rcases Option.bind_eq_some.mp hres with ⟨a, _, hloc⟩
    cases a with
    | inl tid =>
      simp only [locate] at hloc
      rcases Option.map_eq_some'.mp hloc with ⟨x, hfind, hx2⟩
      injection hx2 with hx3
      subst hx3
      exact List.mem_of_find?_eq_some hfind
    | inr pr =>
      obtain ⟨pid, sid⟩ := pr
      simp only [locate] at hloc
      rcases Option.map_eq_some'.mp hloc with ⟨x, _, hx2⟩
      cases hx2
  | inr pr => simp [Sum.map] at hx

theorem get_inr_mem {tasks : List Task} {s : String} {st : Subtask}
    (h : get_task_by_id tasks s = some (Sum.inr st)) : ∃ p ∈ tasks, st ∈ p.subtasks := by
  unfold get_task_by_id at h
  rcases Option.map_eq_some'.mp h with ⟨x, hres, hx⟩
  cases x with
  | inl t0 => simp [Sum.map] at hx
  | inr pr =>
    obtain ⟨pid, st0⟩ := pr
    simp [Sum.map] at hx
    subst hx
    rcases resolveItem_inr_elim hres with ⟨P, hfp, _, hfs⟩
    exact ⟨P, List.mem_of_find?_eq_some hfp, List.mem_of_find?_eq_some hfs⟩

theorem find_next_mem {tasks : List Task} {t : Task}
    (h : find_next_task tasks = some t) : t ∈ eligibleTasks tasks := by
  unfold find_next_task at h
  cases he : eligibleTasks tasks with
  | nil => rw [he] at h; cases h
  | cons e es =>
    rw [he] at h
    injection h with h2
    subst h2
    exact foldlMin_mem es e

/-- C2: for every collection, identifier string and status string,
`set_task_status` terminates with a definite boolean — true exactly when the
status is one of the six valid values and the identifier resolves — on every
input, including calls that promote a subtask's parent; no input escapes
this total characterisation. -/
theorem c2_set_task_status_total (tasks : List Task) (s ns : String) :
    (set_task_status tasks s ns).1 =
      (statusArgs.contains ns && (get_task_by_id tasks s).isSome) := by
  unfold set_task_status
  split
  · rename_i h
    have hc : statusArgs.contains ns = false := by
      revert h; cases statusArgs.contains ns <;> simp
    simp only [hc, Bool.false_and]
  · rename_i h
    have hc : statusArgs.contains ns = true := by
      revert h; cases statusArgs.contains ns <;> simp
    split
    · rename_i heq
      simp [get_task_by_id, heq, hc]
    · rename_i t heq
      have hS : (get_task_by_id tasks s).isSome = true := by simp [get_task_by_id, heq]
      rw [hc, hS]
      simp only [Bool.and_self]
      split <;> rfl
    · rename_i pid st heq
      have hS : (get_task_by_id tasks s).isSome = true := by simp [get_task_by_id, heq]
      rw [hc, hS]
      simp only [Bool.and_self]
      split
      · rfl
      · split
        · split
          · rfl
          · split <;> rfl
        · rfl

/-- C3: an invalid status value or an unresolvable identifier makes
`set_task_status` return failure with the collection untouched and no
execution-history record appended. -/
theorem c3_set_task_status_reject (tasks : List Task) (s ns : String)
    (h : statusArgs.contains ns = false ∨ get_task_by_id tasks s = none) :
    set_task_status tasks s ns = (false, tasks, []) := by
  unfold set_task_status
  rcases h with h | h
  · rw [if_pos (by simp only [h]; decide)]
  · have hr : resolveItem tasks s = none := by
      unfold get_task_by_id at h
      exact Option.map_eq_none'.mp h
    by_cases hc : statusArgs.contains ns = true
    · rw [if_neg (by simp only [hc]; decide)]
      simp [hr]
    · rw [if_pos hc]

/-- Witness for C3 at a concrete invalid status. -/
theorem c3_witness :
    (statusArgs.contains "bogus" = false ∨ get_task_by_id exampleABC "1" = none) ∧
      set_task_status exampleABC "1" "bogus" = (false, exampleABC, []) :=
  ⟨Or.inl (by decide),
   c3_set_task_status_reject exampleABC "1" "bogus" (Or.inl (by decide))⟩

/-- C6: every malformed identifier shape — empty, non-numeric, more than one
separator, or a missing numeric part beside the separator — makes the
resolver return the not-found sentinel (and, being a total function, it
cannot raise). -/
theorem c6_resolve_malformed (tasks : List Task) (s : String) (h : malformedId s) :
    get_task_by_id tasks s = none := by
  suffices hp : parseIdChars s = none by
    simp [get_task_by_id, resolveItem, hp]
  unfold malformedId at h
  unfold parseIdChars
  rcases h with h | ⟨hdot, h2⟩ | ⟨hnd, hp⟩
  · subst h
    simp
  · have hne : s.toList ≠ [] := by
      intro hs
      rw [hs] at hdot
      cases hdot
    rw [if_neg hne, if_pos hdot]
    rcases h2 with hlen | ⟨p, hp, hpp⟩
    · split
      · rename_i p0 p1 heq
        exfalso
        rw [heq] at hlen
        simp at hlen
      · rfl
    · split
      · rename_i p0 p1 heq
        rw [heq] at hp
        simp only [List.mem_cons, List.not_mem_nil, or_false] at hp
        by_cases he : p0 = [] ∨ p1 = []
        · rw [if_pos he]
        · rw [if_neg he]
          cases hq0 : pyParseIntChars (stripWs p0) with
          | none => simp [hq0]
          | some z0 =>
            cases hq1 : pyParseIntChars (stripWs p1) with
            | none => simp [hq0, hq1]
            | some z1 =>
              exfalso
              rcases hp with rfl | rfl
              · rw [hpp] at hq0; cases hq0
              · rw [hpp] at hq1; cases hq1
      · rfl
  · by_cases hne : s.toList = []
    · rw [if_pos hne]
    · rw [if_neg hne, if_neg hnd]
      simp [hp]

/-- Witness for C6 at a concrete doubled separator. -/
theorem c6_witness :
    malformedId "1..2" ∧ get_task_by_id exampleABC "1..2" = none :=
  ⟨by decide, c6_resolve_malformed exampleABC "1..2" (by decide)⟩

/-- C7: adding a subtask under a parent id that matches no top-level task
signals the distinct `ParentTaskNotFoundError` condition and returns the
collection completely unchanged. -/
theorem c7_add_subtask_parent_not_found (tasks : List Task) (pid : Int) (title : String)
    (d : Option String) (p : String) (deps : List Dependency)
    (h : ∀ t ∈ tasks, t.id ≠ pid) :
    add_subtask tasks pid title d p deps =
      (Except.error ⟨"Parent task with ID " ++ toString pid ++ " not found"⟩, tasks) := by
  have hf : tasks.find? (fun t => t.id == pid) = none := by
    rw [List.find?_eq_none]
    intro t ht
    simp [h t ht]
  unfold add_subtask
  rw [hf]

/-- Witness for C7 at a concrete absent parent id. -/
theorem c7_witness :
    (∀ t ∈ exampleABC, t.id ≠ (99 : Int)) ∧
      add_subtask exampleABC 99 "X" none "low" [] =
        (Except.error ⟨"Parent task with ID " ++ toString (99 : Int) ++ " not found"⟩,
         exampleABC) :=
  ⟨by decide, c7_add_subtask_parent_not_found exampleABC 99 "X" none "low" [] (by decide)⟩

/-- C10: the read operations are embedded as pure functions of the
collection — the source assigns to no task or subtask field on these paths,
so the collection after a call is the argument itself — and their results
are entities of that unchanged collection. -/
theorem c10_reads_pure :
    (∀ (tasks : List Task) (s : String) (t : Task),
        get_task_by_id tasks s = some (Sum.inl t) → t ∈ tasks) ∧
    (∀ (tasks : List Task) (s : String) (st : Subtask),
        get_task_by_id tasks s = some (Sum.inr st) → ∃ p ∈ tasks, st ∈ p.subtasks) ∧
    (∀ (tasks : List Task) (t : Task), find_next_task tasks = some t → t ∈ tasks) :=
  ⟨fun _ _ _ h => get_inl_mem h,
   fun _ _ _ h => get_inr_mem h,
   fun _ _ h => List.mem_of_mem_filter (find_next_mem h)⟩

/-- Witness for C10 at a concrete resolution. -/
theorem c10_witness :
    get_task_by_id exampleABC "2" = some (Sum.inl exTaskB) ∧ exTaskB ∈ exampleABC :=
  ⟨by decide, c10_reads_pure.1 exampleABC "2" exTaskB (by decide)⟩

/-- C4: whenever some task is eligible, `find_next_task` returns an eligible
task whose priority rank is maximal, ties broken by the smallest id; in
particular on the fixture A(done), B(medium, dep A), C(high, dep A) it
returns C (id 3). -/
theorem c4_find_next_priority :
    (∀ tasks : List Task, eligibleTasks tasks ≠ [] →
      ∃ t, find_next_task tasks = some t ∧ t ∈ eligibleTasks tasks ∧
        ∀ u ∈ eligibleTasks tasks,
          priorityRank u.priority < priorityRank t.priority ∨
          (priorityRank u.priority = priorityRank t.priority ∧ t.id ≤ u.id)) ∧
    (find_next_task exampleABC).map Task.id = some 3 := by
  constructor
  · intro tasks hne
    unfold find_next_task
    cases he : eligibleTasks tasks with
    | nil => exact absurd he hne
    | cons e es =>
      set r := es.foldl (fun best x => if keyLt (keyOf x) (keyOf best) then x else best) e with hr
      refine ⟨r, rfl, foldlMin_mem es e, ?_⟩
      intro u hu
      have hle := foldlMin_le es e u hu
      rw [← hr] at hle
      unfold keyLe keyOf at hle
      dsimp only at hle
      omega
  · decide

/-- Witness for C4 on the fixture collection. -/
theorem c4_witness :
    eligibleTasks exampleABC ≠ [] ∧
      ∃ t, find_next_task exampleABC = some t ∧ t ∈ eligibleTasks exampleABC ∧
        ∀ u ∈ eligibleTasks exampleABC,
          priorityRank u.priority < priorityRank t.priority ∨
          (priorityRank u.priority = priorityRank t.priority ∧ t.id ≤ u.id) :=
  ⟨by decide, c4_find_next_priority.1 exampleABC (by decide)⟩

/-- C5: a task declaring a dependency reference that resolves to nothing, or
whose shape is neither an integer nor a composite "parent.sub" string, is
never the task returned by `find_next_task`. -/
theorem c5_bad_dep_never_selected (tasks : List Task) (t : Task)
    (h : ∃ d ∈ t.dependencies, badDep tasks d) :
    find_next_task tasks ≠ some t := by
  intro hfind
  obtain ⟨d, hd, hbad⟩ := h
  have ht : t ∈ eligibleTasks tasks := find_next_mem hfind
  have hfil := (List.mem_filter.mp ht).2
  have hmet : depsMet tasks t = true := by
    simp only [Bool.and_eq_true] at hfil
    exact hfil.1.2
  have hsat : depSatisfied tasks d = true := by
    unfold depsMet at hmet
    exact (List.all_eq_true.mp hmet) d hd
  cases d with
  | ofInt n =>
    simp only [depSatisfied] at hsat
    have hn : n ∈ completedIds tasks := by simpa using hsat
    unfold completedIds at hn
    rcases List.mem_map.mp hn with ⟨t2, ht2, hid⟩
    exact hbad t2 (List.mem_filter.mp ht2).1 hid
  | ofStr s2 =>
    simp only [depSatisfied] at hsat
    rcases hbad with hnd | hres
    · rw [if_neg hnd] at hsat
      cases hsat
    · by_cases hdot : '.' ∈ s2.toList
      · rw [if_pos hdot] at hsat
        simp [hres] at hsat
      · rw [if_neg hdot] at hsat
        cases hsat

/-- Witness for C5 on the dangling-dependency fixture. -/
theorem c5_witness :
    (∃ d ∈ exDanglingTask.dependencies, badDep exDangling d) ∧
      find_next_task exDangling ≠ some exDanglingTask :=
  ⟨by decide, c5_bad_dep_never_selected exDangling exDanglingTask (by decide)⟩

/-- C8: on a collection with pairwise distinct top-level ids and pairwise
distinct sibling subtask ids, `add_new_task` and `add_subtask` preserve the
invariant; the new task id is 1 on an empty collection and exceeds every
existing id otherwise, and the new subtask id is 1 for a childless parent
and exceeds every sibling id otherwise. -/
theorem c8_unique_ids :
    (∀ (tasks : List Task) (title : String) (d : Option String) (p : String)
        (deps : List Dependency), UniqueIds tasks →
      UniqueIds (add_new_task tasks title d p deps).2 ∧
      (tasks = [] → (add_new_task tasks title d p deps).1.id = 1) ∧
      (∀ t ∈ tasks, t.id < (add_new_task tasks title d p deps).1.id)) ∧
    (∀ (tasks : List Task) (pid : Int) (title : String) (d : Option String) (p : String)
        (deps : List Dependency) (st : Subtask) (tasks2 : List Task), UniqueIds tasks →
      add_subtask tasks pid title d p deps = (Except.ok st, tasks2) →
      UniqueIds tasks2 ∧
      ∀ parent, tasks.find? (fun t => t.id == pid) = some parent →
        (parent.subtasks = [] → st.id = 1) ∧ ∀ s2 ∈ parent.subtasks, s2.id < st.id) := by
  constructor
  · intro tasks title d p deps hU
    refine ⟨⟨?_, ?_⟩, ?_, ?_⟩
    · show ((tasks ++ [_]).map Task.id).Nodup
      rw [List.map_append]
      rw [List.nodup_append]
      refine ⟨hU.1, List.nodup_singleton _, ?_⟩
      intro x hx
      rcases List.mem_map.mp hx with ⟨t, ht, hid⟩
      have := lt_newTaskId tasks t ht
      simp only [List.map_cons, List.map_nil, List.mem_singleton]
      intro hcontra
      omega
    · intro t htm
      rw [show (add_new_task tasks title d p deps).2 = tasks ++ [(add_new_task tasks title d p deps).1] from rfl] at htm
      rw [List.mem_append] at htm
      rcases htm with hm | hm
      · exact hU.2 t hm
      · simp only [List.mem_singleton] at hm
        subst hm
        simp [add_new_task]
    · intro he
      subst he
      rfl
    · intro t ht
      exact lt_newTaskId tasks t ht
  · intro tasks pid title d p deps st tasks2 hU heq
    unfold add_subtask at heq
    cases hfp : tasks.find? (fun t2 => t2.id == pid) with
    | none =>
      simp only [hfp] at heq
      exact absurd (congrArg Prod.fst heq) (by simp)
    | some parent =>
      simp only [hfp] at heq
      have hst : st =
          { id := newSubtaskId parent, title := title, description := d,
            status := "pending", priority := p,
            dependencies := validDeps tasks deps, parent_task_id := pid } :=
        (Except.ok.inj (congrArg Prod.fst heq)).symm
      have ht2 : tasks2 =
          updateFirst (fun t => t.id == pid)
            (fun p2 => { p2 with subtasks := p2.subtasks ++
              [{ id := newSubtaskId parent, title := title, description := d,
                 status := "pending", priority := p,
                 dependencies := validDeps tasks deps, parent_task_id := pid }] }) tasks :=
        (congrArg Prod.snd heq).symm
      subst hst
      subst ht2
      set newSub : Subtask :=
        { id := newSubtaskId parent, title := title, description := d,
          status := "pending", priority := p,
          dependencies := validDeps tasks deps, parent_task_id := pid } with hnew
      constructor
      · constructor
        · rw [updateFirst_map (fun t => t.id == pid)
            (fun p2 => { p2 with subtasks := p2.subtasks ++ [newSub] })
            Task.id tasks (fun x => rfl)]
          exact hU.1
        · intro t htm
          rcases mem_updateFirst _ _ _ parent hfp t htm with hm | hm
          · exact hU.2 t hm
          · subst hm
            show ((parent.subtasks ++ [newSub]).map Subtask.id).Nodup
            rw [List.map_append, List.nodup_append]
            refine ⟨hU.2 parent (List.mem_of_find?_eq_some hfp), List.nodup_singleton _, ?_⟩
            intro x hx
            rcases List.mem_map.mp hx with ⟨s2, hs2, hid⟩
            have hlt := lt_newSubtaskId parent s2 hs2
            have hid2 : newSub.id = newSubtaskId parent := rfl
            simp only [List.map_cons, List.map_nil, List.mem_singleton]
            intro hcontra
            omega
      · intro parent2 hfp2
        have hpp : parent2 = parent := (Option.some.inj hfp2).symm
        subst hpp
        constructor
        · intro h0
          show newSubtaskId parent2 = 1
          unfold newSubtaskId
          rw [h0]
          rfl
        · intro s2 hs2
          exact lt_newSubtaskId parent2 s2 hs2

/-- C1: setting a pending subtask S to "done" through `set_task_status` sets
its parent's status to "done" exactly when afterwards every sibling subtask
under that parent is "done" and the parent was not already "done"; when some
sibling is not "done" the parent's status is unchanged.  Hypotheses: the
identifier resolves to S inside the task at position `pid`, S's
back-reference matches that owner (spec section 3 invariant), and S is not
already "done" (an equal-status call is the source's no-op path, line 151,
which updates nothing). -/
theorem c1_subtask_promotes_parent (tasks : List Task) (idStr : String) (pid : Int)
    (S : Subtask) (P : Task)
    (hres : resolveItem tasks idStr = some (Sum.inr (pid, S)))
    (hP : tasks.find? (fun t => t.id == pid) = some P)
    (hback : S.parent_task_id = pid)
    (hold : S.status ≠ "done") :
    ∃ P', ((set_task_status tasks idStr "done").2.1).find? (fun t => t.id == pid) = some P' ∧
      P'.subtasks = updateFirst (fun s2 => s2.id == S.id)
          (fun s2 => { s2 with status := "done" }) P.subtasks ∧
      P'.status =
        (if ((updateFirst (fun s2 => s2.id == S.id)
                (fun s2 => { s2 with status := "done" }) P.subtasks).all
              (fun s2 => s2.status == "done")) = true ∧ P.status ≠ "done"
         then "done" else P.status) := by
  have hPid : P.id = pid := by simpa using List.find?_some hP
  obtain ⟨P0, hfp0, hne0, hfs0⟩ := resolveItem_inr_elim hres
  have hPP : P = P0 := Option.some.inj (hP.symm.trans hfp0)
  subst hPP
  have hsne : (S.status == "done") = false := by
    rw [beq_eq_false_iff_ne]
    exact hold
  unfold set_task_status
  rw [if_neg (by decide)]
  simp only [hres]
  rw [if_neg (by simp [hsne])]
  rw [if_pos (by decide : (("done" : String) == "done") = true)]
  rw [hback]
  have hfind1 := find?_updateFirst (fun u => u.id == pid)
    (setSubStatus S.id "done") tasks (fun x hx => hx)
  rw [hP] at hfind1
  simp only [Option.map_some'] at hfind1
  rw [hfind1]
  dsimp only [setSubStatus]
  have hnem : updateFirst (fun s2 => s2.id == S.id)
      (fun s2 => { s2 with status := "done" }) P.subtasks ≠ [] := by
    intro h0
    have := updateFirst_length (fun s2 => s2.id == S.id)
      (fun s2 => { s2 with status := "done" }) P.subtasks
    rw [h0] at this
    exact hne0 (List.length_eq_zero.mp this.symm)
  by_cases hc : ((updateFirst (fun s2 => s2.id == S.id)
      (fun s2 => { s2 with status := "done" }) P.subtasks).all
        (fun s2 => s2.status == "done")) = true ∧ P.status ≠ "done"
  · rw [if_pos ⟨hnem, hc.1, hc.2⟩]
    dsimp only
    rw [hPid]
    have hfind2 := find?_updateFirst (fun u => u.id == pid)
      (fun p2 => { p2 with status := "done" })
      (updateFirst (fun u => u.id == pid) (setSubStatus S.id "done") tasks)
      (fun x hx => hx)
    rw [hfind1] at hfind2
    simp only [Option.map_some'] at hfind2
    rw [hfind2]
    refine ⟨_, rfl, rfl, ?_⟩
    rw [if_pos hc]
  · rw [if_neg (by intro hcon; exact hc ⟨hcon.2.1, hcon.2.2⟩)]
    refine ⟨_, hfind1, rfl, ?_⟩
    rw [if_neg hc]
    rfl

/-- A nonempty stack whose chain invariant holds reaches its own head: any
member of the stack has a (possibly empty) edge path up to the top. -/
theorem stackPath (adj : String → List String) :
    ∀ (rest : List String) (u v : String), StackOk adj (u :: rest) → v ∈ u :: rest →
      Relation.ReflTransGen (EdgeF adj) v u := by
  intro rest
  induction rest with
  | nil =>
    intro u v _ hv
    simp at hv
    subst hv
    exact Relation.ReflTransGen.refl
  | cons w ws ih =>
    intro u v hok hv
    have hok2 := List.chain'_cons.mp hok
    rw [List.mem_cons] at hv
    rcases hv with rfl | hv
    · exact Relation.ReflTransGen.refl
    · exact Relation.ReflTransGen.tail (ih w v hok2.2 hv) hok2.1

/-- Soundness of the depth-first visit: a reported cycle means the edge
relation really has a directed cycle. -/
theorem visit_sound (adj : String → List String) : ∀ fuel : Nat,
    (∀ stack v visited c vis, StackOk adj stack →
      (∀ u, stack.head? = some u → EdgeF adj u v) →
      visitNode adj fuel stack v visited = (some c, vis) →
      ∃ w, Relation.TransGen (EdgeF adj) w w) ∧
    (∀ stack ns visited c vis, StackOk adj stack →
      (∀ w2 ∈ ns, ∀ u, stack.head? = some u → EdgeF adj u w2) →
      visitEdges adj fuel stack ns visited = (some c, vis) →
      ∃ w, Relation.TransGen (EdgeF adj) w w) := by
  intro fuel
  induction fuel with
  | zero =>
    constructor
    · intro stack v visited c vis _ _ h
      simp [visitNode] at h
    · intro stack ns
      induction ns with
      | nil =>
        intro visited c vis _ _ h
        simp [visitEdges] at h
      | cons w2 ws ih =>
        intro visited c vis hok hH h
        rw [visitEdges] at h
        have h0 : visitNode adj 0 stack w2 visited = (none, visited) := by
          simp [visitNode]
        simp only [h0] at h
        exact ih visited c vis hok (fun w hw u hu => hH w (List.mem_cons_of_mem _ hw) u hu) h
  | succ f ihf =>
    have hP : ∀ stack v visited c vis, StackOk adj stack →
        (∀ u, stack.head? = some u → EdgeF adj u v) →
        visitNode adj (Nat.succ f) stack v visited = (some c, vis) →
        ∃ w, Relation.TransGen (EdgeF adj) w w := by
      intro stack v visited c vis hok hH h
      rw [visitNode] at h
      by_cases h1 : visited.contains v = true
      · rw [if_pos h1] at h
        exact absurd (congrArg Prod.fst h) (by simp)
      · by_cases h2 : stack.contains v = true
        · have hv : v ∈ stack := List.elem_iff.mp h2
          cases stack with
          | nil => simp at hv
          | cons u rest =>
            have he : EdgeF adj u v := hH u rfl
            exact ⟨v, Relation.TransGen.tail' (stackPath adj rest u v hok hv) he⟩
        · rw [if_neg h1, if_neg h2] at h
          cases hve : visitEdges adj f (v :: stack) (adj v) visited with
          | mk o vis2 =>
            cases o with
            | some c2 =>
              refine ihf.2 (v :: stack) (adj v) visited c2 vis2 ?_ ?_ hve
              · cases stack with
                | nil => exact List.chain'_singleton v
                | cons u rest => exact List.chain'_cons.mpr ⟨hH u rfl, hok⟩
              · intro w2 hw2 u hu
                have huv : v = u := Option.some.inj hu
                subst huv
                exact hw2
            | none =>
              simp only [hve] at h
              cases h
    refine ⟨hP, ?_⟩
    intro stack ns
    induction ns with
    | nil =>
      intro visited c vis _ _ h
      simp [visitEdges] at h
    | cons w2 ws ih =>
      intro visited c vis hok hH h
      rw [visitEdges] at h
      cases hvn : visitNode adj (Nat.succ f) stack w2 visited with
      | mk o vis2 =>
        cases o with
        | some c2 =>
          exact hP stack w2 visited c2 vis2 hok
            (fun u hu => hH w2 (List.mem_cons_self _ _) u hu) hvn
        | none =>
          simp only [hvn] at h
          exact ih vis2 c vis hok (fun w hw u hu => hH w (List.mem_cons_of_mem _ hw) u hu) h

/-- Soundness of the root loop: a reported cycle means a real cycle. -/
theorem findCycleFrom_sound (adj : String → List String) :
    ∀ (roots : List String) (fuel : Nat) (visited : List String) (c : List String),
      findCycleFrom adj fuel roots visited = some c →
      ∃ w, Relation.TransGen (EdgeF adj) w w := by
  intro roots
  induction roots with
  | nil =>
    intro fuel visited c h
    simp [findCycleFrom] at h
  | cons r rs ih =>
    intro fuel visited c h
    rw [findCycleFrom] at h
    cases hvn : visitNode adj fuel [] r visited with
    | mk o vis2 =>
      cases o with
      | some c2 =>
        exact (visit_sound adj fuel).1 [] r visited c2 vis2 List.chain'_nil
          (fun u hu => by cases hu) hvn
      | none =>
        simp only [hvn] at h
        exact ih fuel vis2 c h

/-- C9: on a collection whose dependency graph — tasks and subtasks as
nodes, edges only to dependency targets that exist in the collection, so a
dangling reference contributes no edge — is acyclic, including the empty
collection, `find_circular_dependencies` returns none. -/
theorem c9_acyclic_no_cycle (tasks : List Task) (h : AcyclicDeps tasks) :
    find_circular_dependencies tasks = none := by
  cases hf : find_circular_dependencies tasks with
  | none => rfl
  | some c =>
    exfalso
    unfold find_circular_dependencies at hf
    obtain ⟨w, hw⟩ := findCycleFrom_sound (adjacency tasks) _ _ _ _ hf
    exact h w hw

/-- An edge-free collection is acyclic. -/
theorem acyclic_of_no_edge (tasks : List Task) (h : ∀ a b, ¬ Edge tasks a b) :
    AcyclicDeps tasks := by
  intro v hv
  cases hv with
  | single h1 => exact h _ _ h1
  | tail _ h1 => exact h _ _ h1

/-- The dangling-dependency fixture has no edges at all: its one declared
reference points at no existing node. -/
theorem adjacency_exDangling (a : String) : adjacency exDangling a = [] := by
  unfold adjacency
  cases hf : (nodeList exDangling).find? (fun p => p.1 == a) with
  | none => rfl
  | some p =>
    have hp := List.mem_of_find?_eq_some hf
    have hnl : nodeList exDangling = [(intLabel 1, [Dependency.ofInt 99])] := rfl
    rw [hnl] at hp
    simp only [List.mem_singleton] at hp
    subst hp
    decide

/-- No edge in the dangling-dependency fixture's graph. -/
theorem exDangling_no_edge : ∀ a b, ¬ Edge exDangling a b := by
  intro a b hb
  unfold Edge EdgeF at hb
  rw [adjacency_exDangling] at hb
  exact absurd hb (List.not_mem_nil b)

/-- Witness for C9: the dangling-reference fixture is acyclic and the
detector reports no cycle there. -/
theorem c9_witness :
    AcyclicDeps exDangling ∧ find_circular_dependencies exDangling = none :=
  ⟨acyclic_of_no_edge exDangling exDangling_no_edge,
   c9_acyclic_no_cycle exDangling (acyclic_of_no_edge exDangling exDangling_no_edge)⟩

/-- Witness for C1: completing the last pending subtask 3.2 promotes its
in-progress parent to done. -/
theorem c1_witness :
    resolveItem exPromote "3.2" = some (Sum.inr (3, exSub32)) ∧
      ∃ P', ((set_task_status exPromote "3.2" "done").2.1).find?
          (fun t => t.id == (3 : Int)) = some P' ∧
        P'.subtasks = updateFirst (fun s2 => s2.id == exSub32.id)
            (fun s2 => { s2 with status := "done" }) exParent3.subtasks ∧
        P'.status =
          (if ((updateFirst (fun s2 => s2.id == exSub32.id)
                  (fun s2 => { s2 with status := "done" }) exParent3.subtasks).all
                (fun s2 => s2.status == "done")) = true ∧ exParent3.status ≠ "done"
           then "done" else exParent3.status) :=
  ⟨by decide,
   c1_subtask_promotes_parent exPromote "3.2" 3 exSub32 exParent3
     (by decide) (by decide) (by decide) (by decide)⟩

/-- Witness for C8 on the fixture collection. -/
theorem c8_witness :
    UniqueIds exampleABC ∧
      (UniqueIds (add_new_task exampleABC "N" none "low" []).2 ∧
       (exampleABC = [] → (add_new_task exampleABC "N" none "low" []).1.id = 1) ∧
       (∀ t ∈ exampleABC, t.id < (add_new_task exampleABC "N" none "low" []).1.id)) :=
  ⟨by decide, c8_unique_ids.1 exampleABC "N" none "low" [] (by decide)⟩

end TaskManager
